import Mathlib

/-!
Shallow embedding of the Oscar-100 dish-alignment helper's spectral pipeline
(`NBfinal.py`, `WBfinal.py`) and proofs about it.

Python floats are idealized as rationals (`ℚ`) on the viewer side, where only
field arithmetic, comparisons, medians and percentiles occur; the SDR worker's
dB conversion uses real logarithms and the complex DFT, so that part is
embedded over `ℝ`/`ℂ`.
-/

/-! ## Definitions: the embedded program -/

/-- Insert a rational into an already sorted list (ascending). -/
def insertSorted (x : ℚ) : List ℚ → List ℚ
  | [] => [x]
  | y :: ys => if x ≤ y then x :: y :: ys else y :: insertSorted x ys

/-- Insertion sort, ascending; models numpy's internal sort for
`np.median` / `np.percentile`. -/
def sortQ : List ℚ → List ℚ
  | [] => []
  | x :: xs => insertSorted x (sortQ xs)

/-- `np.median`: middle element of the sorted data for odd length, average
of the two middle elements for even length. -/
def median (xs : List ℚ) : ℚ :=
  let s := sortQ xs
  let n := s.length
  if n % 2 = 1 then s.getD (n / 2) 0
  else (s.getD (n / 2 - 1) 0 + s.getD (n / 2) 0) / 2

/-- `np.percentile(xs, q)` with the default linear interpolation:
`h = (n-1)·q/100`, result `s[⌊h⌋] + (h-⌊h⌋)·(s[⌊h⌋+1] - s[⌊h⌋])`. -/
def percentile (xs : List ℚ) (q : ℚ) : ℚ :=
  let s := sortQ xs
  let n := s.length
  let h := ((n : ℚ) - 1) * q / 100
  let lo := (Int.floor h).toNat
  let v0 := s.getD lo 0
  let v1 := s.getD (lo + 1) v0
  v0 + (h - (lo : ℚ)) * (v1 - v0)

/-- Arithmetic mean of a list of rationals (0 for the empty list). -/
def meanQ (xs : List ℚ) : ℚ := xs.sum / xs.length

/-- numpy boolean-mask selection: keep the entries of `vals` whose paired
`axis` entry satisfies the mask predicate. -/
def maskedVals (axis vals : List ℚ) (p : ℚ → Bool) : List ℚ :=
  ((axis.zip vals).filter (fun t => p t.1)).map (fun t => t.2)

/-- The character for decimal digit `d`. -/
def digitChar (d : ℕ) : Char := Char.ofNat (48 + d)

/-- Numeric value of a digit character. -/
def digitToNat (c : Char) : ℕ := c.toNat - 48

/-- Decimal digits of `n`, least-significant first (empty for 0); the first
argument is fuel, always called with `fuel = n`. -/
def natDigitsAux : ℕ → ℕ → List ℕ
  | 0, _ => []
  | fuel + 1, n => if n = 0 then [] else n % 10 :: natDigitsAux fuel (n / 10)

/-- Decimal digits of `n`, least-significant first (empty for 0). -/
def natDigits (n : ℕ) : List ℕ := natDigitsAux n n

/-- Value of a most-significant-first digit list, accumulator form. -/
def valAcc (a : ℕ) (l : List ℕ) : ℕ := l.foldl (fun a d => 10 * a + d) a

/-- Value of a most-significant-first digit list. -/
def valMSB (l : List ℕ) : ℕ := valAcc 0 l

/-- Value of a least-significant-first digit list. -/
def valLSB : List ℕ → ℕ
  | [] => 0
  | d :: ds => d + 10 * valLSB ds

/-- Most-significant-first decimal digits of a natural number (`[0]` for 0). -/
def idigits (m : ℕ) : List ℕ :=
  if m = 0 then [0] else (natDigits m).reverse

/-- Most-significant-first digit characters of a natural number (`"0"` for 0),
as printed by Python's string formatting of the integer part. -/
def intChars (m : ℕ) : List Char := (idigits m).map digitChar

/-- Exactly three fraction digits for a value `fr < 1000` (most-significant
first, left-padded with zeros). -/
def fdigits (fr : ℕ) : List ℕ :=
  List.replicate (3 - (natDigits fr).length) 0 ++ (natDigits fr).reverse

/-- The fraction digit characters printed by `.3f` formatting. -/
def fracChars (fr : ℕ) : List Char := (fdigits fr).map digitChar

/-- Round a rational to the nearest integer, ties to even — the rounding used
by Python's fixed-point string formatting. -/
def roundHE (q : ℚ) : ℤ :=
  let f := Int.floor q
  let r := q - f
  if r < 1/2 then f else if r > 1/2 then f + 1 else if f % 2 = 0 then f else f + 1

/-- Python `f"{q:.3f}"`: the decimal rendering of `q` rounded to exactly three
decimal places. -/
def fmt3 (q : ℚ) : String :=
  let n := roundHE (q * 1000)
  let a := n.natAbs
  let cs := intChars (a / 1000) ++ '.' :: fracChars (a % 1000)
  String.mk (if n < 0 then '-' :: cs else cs)

/-- Split a maximal run of leading digit characters off a character list,
returning their numeric values and the remainder. -/
def splitDigits : List Char → List ℕ × List Char
  | [] => ([], [])
  | c :: cs =>
    if c.isDigit then
      let p := splitDigits cs
      (digitToNat c :: p.1, p.2)
    else ([], c :: cs)

/-- Parse an unsigned decimal literal (`"12"`, `"12.5"`, `"12."`, `".5"`);
`none` on anything else. Models Python `float()` restricted to the plain
decimal forms the program ever writes or reads. -/
def parseUnsigned (cs : List Char) : Option ℚ :=
  match splitDigits cs with
  | (ip, []) => if ip.isEmpty then none else some (valMSB ip)
  | (ip, c :: rest2) =>
    if c = '.' then
      match splitDigits rest2 with
      | (fp, []) =>
        if ip.isEmpty && fp.isEmpty then none
        else some ((valMSB ip : ℚ) + (valMSB fp : ℚ) / 10 ^ fp.length)
      | (_, _ :: _) => none
    else none

/-- Python `float(s)` for optionally signed plain decimal literals; `none`
when unparsable (raises `ValueError`). -/
def parseFloat (s : String) : Option ℚ :=
  match s.data with
  | [] => none
  | c :: cs =>
    if c = '-' then (parseUnsigned cs).map (fun v => -v)
    else if c = '+' then parseUnsigned cs
    else parseUnsigned (c :: cs)

/-- `NB_BPSK_DL` (MHz), `NBfinal.py` user settings. -/
def NB_BPSK_DL : ℚ := 10489750 / 1000

/-- `LNB_LO_NOMINAL_MHZ` (MHz). -/
def LNB_LO_NOMINAL_MHZ : ℚ := 9750

/-- `DISPLAY_OFFSET_MHZ` (MHz). -/
def DISPLAY_OFFSET_MHZ : ℚ := 10000

/-- `OFFSET_STEP_KHZ`: the fixed 0.1 kHz offset step. -/
def OFFSET_STEP_KHZ : ℚ := 1 / 10

/-- `NOISE_WINDOW_KHZ`: half-width of the noise window around the beacon. -/
def NOISE_WINDOW_KHZ : ℚ := 10

/-- `EXCLUDE_KHZ`: half-width of the beacon exclusion sub-window. -/
def EXCLUDE_KHZ : ℚ := 3

/-- `AVG_FRAMES`: capacity K of the averaging ring. -/
def AVG_FRAMES : ℕ := 8

/-- `self.nb_bpsk_disp`: displayed beacon frequency (MHz). -/
def nb_bpsk_disp : ℚ := NB_BPSK_DL - DISPLAY_OFFSET_MHZ

/-- `self.fc_nominal_hz`: the nominal IF center the hardware is tuned to
once, in Hz; never shifted by the offset. -/
def fc_nominal_hz : ℚ := (NB_BPSK_DL - LNB_LO_NOMINAL_MHZ) * 1000000

/-- State of the `NBfinal.py` `SpectrumViewer` (the fields the pipeline
mutates), plus the worker's tuned center frequency and the offset file. -/
structure NBViewer where
  offset_khz : ℚ
  file : Option String
  freq_axis_disp : List ℚ
  curve_y : List ℚ
  fft_buffer : ℕ → ℕ → ℚ
  idx : ℕ
  worker_fc : ℚ

/-- The display frequency axis of `recompute_display_axis`:
`linspace(fc_nom - fs/2, fc_nom + fs/2, N, endpoint=False)/1e6`
shifted by the offset (kHz → MHz) and by `LNB_LO_NOMINAL - DISPLAY_OFFSET`. -/
def nbFreqAxisDisp (fs : ℚ) (N : ℕ) (offset_khz : ℚ) : List ℚ :=
  (List.range N).map (fun i =>
    (fc_nominal_hz - fs / 2 + (i : ℚ) * (fs / (N : ℚ))) / 1000000 + offset_khz / 1000
      + (LNB_LO_NOMINAL_MHZ - DISPLAY_OFFSET_MHZ))

/-- Python `str.strip()`: drop whitespace from both ends. -/
def pyStrip (s : String) : String :=
  String.mk (((s.data.dropWhile Char.isWhitespace).reverse.dropWhile Char.isWhitespace).reverse)

/-- `SpectrumViewer.load_offset`: read the offset file; on a parse failure or
a missing file, fall back to 50.0 and rewrite the store. Returns the loaded
value and the resulting file content. -/
def load_offset (file : Option String) : ℚ × Option String :=
  match file with
  | none => (50, some (fmt3 50))
  | some raw =>
    match parseFloat (pyStrip raw) with
    | some v => (v, some raw)
    | none => (50, some (fmt3 50))

/-- `SpectrumViewer.save_offset`: optionally overwrite the in-memory offset,
then write, flush and fsync its three-decimal rendering to the file. -/
def save_offset (s : NBViewer) (val : Option ℚ) : NBViewer :=
  let s2 := match val with
    | some v => { s with offset_khz := v }
    | none => s
  { s2 with file := some (fmt3 s2.offset_khz) }

/-- `SpectrumViewer.recompute_display_axis`: rebuild the display axis from
the nominal center and current offset, and repaint the curve with its
previous y data against the new x data. -/
def recompute_display_axis (fs : ℚ) (N : ℕ) (s : NBViewer) : NBViewer :=
  { s with freq_axis_disp := nbFreqAxisDisp fs N s.offset_khz,
           curve_y := s.curve_y }

/-- `SpectrumViewer.offset_minus`: step the offset down, persist, rebuild
the axis. -/
def offset_minus (fs : ℚ) (N : ℕ) (s : NBViewer) : NBViewer :=
  recompute_display_axis fs N
    (save_offset { s with offset_khz := s.offset_khz - OFFSET_STEP_KHZ } none)

/-- `SpectrumViewer.offset_plus`: step the offset up, persist, rebuild
the axis. -/
def offset_plus (fs : ℚ) (N : ℕ) (s : NBViewer) : NBViewer :=
  recompute_display_axis fs N
    (save_offset { s with offset_khz := s.offset_khz + OFFSET_STEP_KHZ } none)

/-- `SpectrumViewer.__init__` state: offset loaded from the store, axis
built once, curve y preset to −50 dB, averaging ring `np.zeros((8, N))`,
cyclic index 0, hardware tuned once to the nominal IF center. -/
def nbInit (fs : ℚ) (N : ℕ) (file : Option String) : NBViewer :=
  { offset_khz := (load_offset file).1
    file := (load_offset file).2
    freq_axis_disp := nbFreqAxisDisp fs N (load_offset file).1
    curve_y := List.replicate N (-50)
    fft_buffer := fun _ _ => 0
    idx := 0
    worker_fc := fc_nominal_hz }

/-- Column-wise arithmetic mean over all `AVG_FRAMES` ring slots
(`self.fft_buffer.mean(axis=0)`). -/
def nbAvgList (N : ℕ) (buf : ℕ → ℕ → ℚ) : List ℚ :=
  (List.range N).map (fun n => (∑ j ∈ Finset.range AVG_FRAMES, buf j n) / (AVG_FRAMES : ℚ))

/-- The noise mask of `NBfinal.update_curve`: inside the ±10 kHz window
around the displayed beacon, outside the ±3 kHz exclusion sub-window. -/
def nbNoiseMask (f : ℚ) : Bool :=
  (decide (nb_bpsk_disp - NOISE_WINDOW_KHZ / 1000 < f)
      && decide (f < nb_bpsk_disp + NOISE_WINDOW_KHZ / 1000))
    && !(decide (nb_bpsk_disp - EXCLUDE_KHZ / 1000 < f)
      && decide (f < nb_bpsk_disp + EXCLUDE_KHZ / 1000))

/-- `self.fft_buffer[self.idx % AVG_FRAMES, :] = P_db`: the ring buffer
after storing the newly pushed spectrum in the slot at the cyclic index. -/
def nbBufAfter (s : NBViewer) (P_db : List ℚ) : ℕ → ℕ → ℚ :=
  fun j => if j = s.idx % AVG_FRAMES then (fun n => P_db.getD n 0) else s.fft_buffer j

/-- `NBfinal.SpectrumViewer.update_curve`: store the new spectrum in the
ring, advance the index, average, and — only if the masked noise selection
is nonempty — repaint the curve as average minus the selection's median. -/
def update_curve (N : ℕ) (s : NBViewer) (P_db : List ℚ) : NBViewer :=
  let buf := nbBufAfter s P_db
  let idx2 := s.idx + 1
  let avg_P := nbAvgList N buf
  let sel := maskedVals s.freq_axis_disp avg_P nbNoiseMask
  if sel.isEmpty then
    { s with fft_buffer := buf, idx := idx2 }
  else
    { s with fft_buffer := buf, idx := idx2,
             curve_y := avg_P.map (fun x => x - median sel) }

/-- State of the `WBfinal.py` `SpectrumViewer`: calibration phase, latched
noise reference, displayed curve, plateau smoothing pipeline. -/
structure WBViewer where
  noise_locked : Bool
  noise_value : Option ℚ
  calib_start : ℚ
  curve_y : List ℚ
  plateau_window : List ℚ
  plateau_smooth : Option ℚ
  plateau_min : Option ℚ
  plateau_max : Option ℚ
  current_ymax : ℚ

/-- `self.freq_axis`: `linspace(fc - fs/2, fc + fs/2, N, endpoint=False)/1e6`. -/
def wbFreqAxis (fc fs : ℚ) (N : ℕ) : List ℚ :=
  (List.range N).map (fun i => (fc - fs / 2 + (i : ℚ) * (fs / (N : ℚ))) / 1000000)

/-- `WBfinal.SpectrumViewer.__init__` state at wall-clock time `now`:
CALIBRATING, no latched reference, curve preset to −120 dB. -/
def wbInit (N : ℕ) (now : ℚ) : WBViewer :=
  { noise_locked := false
    noise_value := none
    calib_start := now
    curve_y := List.replicate N (-120)
    plateau_window := []
    plateau_smooth := none
    plateau_min := none
    plateau_max := none
    current_ymax := 10 }

/-- `left_mask`: bins strictly below the beacon band start
`(fc - beacon_bw/2)/1e6` with `beacon_bw = 2 MHz` — the noise-estimation
region. -/
def wb_left_mask (fc : ℚ) (f : ℚ) : Bool := decide (f < (fc - 1000000) / 1000000)

/-- `beacon_mask`: bins within `fc ± beacon_bw/4`. -/
def wb_beacon_mask (fc : ℚ) (f : ℚ) : Bool :=
  decide ((fc - 500000) / 1000000 ≤ f) && decide (f ≤ (fc + 500000) / 1000000)

/-- `if self.plateau_min is None or plateau_y < self.plateau_min:` — the
running-minimum update. -/
def wb_min_update (old : Option ℚ) (y : ℚ) : Option ℚ :=
  match old with
  | none => some y
  | some m => if y < m then some y else some m

/-- `if self.plateau_max is None or plateau_y > self.plateau_max:` — the
running-maximum update. -/
def wb_max_update (old : Option ℚ) (y : ℚ) : Option ℚ :=
  match old with
  | none => some y
  | some m => if m < y then some y else some m

/-- The calibration block of `WBfinal.SpectrumViewer.update_curve`: while
CALIBRATING, once the 3 s dwell from construction has elapsed and the
noise-estimation region is nonempty, latch the 95th percentile of the region
as the reference and transition to LOCKED; otherwise leave the state alone. -/
def wb_calibrate (fc fs : ℚ) (N : ℕ) (s : WBViewer) (P_db : List ℚ) (now : ℚ) : WBViewer :=
  let leftVals := maskedVals (wbFreqAxis fc fs N) P_db (wb_left_mask fc)
  if !s.noise_locked && decide (3 ≤ now - s.calib_start) && !leftVals.isEmpty then
    { s with noise_value := some (percentile leftVals 95), noise_locked := true }
  else s

/-- The display block of `WBfinal.SpectrumViewer.update_curve`: when LOCKED
with a latched reference, show the spectrum minus the reference and run the
plateau pipeline (98th percentile over the beacon band, 15-sample rolling
median, EMA with α = 0.2, monotone min/max, expand-only y range); otherwise
show the raw spectrum. -/
def wb_display (fc fs : ℚ) (N : ℕ) (s : WBViewer) (P_db : List ℚ) : WBViewer :=
  match s.noise_locked, s.noise_value with
  | true, some noise =>
    let axis := wbFreqAxis fc fs N
    let P_rel := P_db.map (fun x => x - noise)
    let beaconVals := maskedVals axis P_rel (wb_beacon_mask fc)
    let plateau_y_raw := if beaconVals.isEmpty then 0 else percentile beaconVals 98
    let w0 := s.plateau_window ++ [plateau_y_raw]
    let w := w0.drop (w0.length - 15)
    let plateau_median := median w
    let psm := match s.plateau_smooth with
      | none => plateau_median
      | some p => (1 - 1/5) * p + (1/5) * plateau_median
    let plateau_y := psm
    let pmin := wb_min_update s.plateau_min plateau_y
    let pmax := wb_max_update s.plateau_max plateau_y
    let target_ymax := if plateau_y ≠ 0 then plateau_y / (8/10) else s.current_ymax
    let cymax := if s.current_ymax < target_ymax then target_ymax else s.current_ymax
    { s with curve_y := P_rel
             plateau_window := w
             plateau_smooth := some psm
             plateau_min := pmin
             plateau_max := pmax
             current_ymax := cymax }
  | _, _ => { s with curve_y := P_db }

/-- `WBfinal.SpectrumViewer.update_curve` at wall-clock time `now`: the
calibration block followed by the display block, exactly as the two
sequential statements in the source. -/
def wb_update_curve (fc fs : ℚ) (N : ℕ) (s : WBViewer) (P_db : List ℚ) (now : ℚ) : WBViewer :=
  wb_display fc fs N (wb_calibrate fc fs N s P_db now) P_db

/-- Run `update_curve` over a whole session: a list of (spectrum, time)
pairs, processed in order. -/
def wb_run (fc fs : ℚ) (N : ℕ) (s : WBViewer) (inputs : List (List ℚ × ℚ)) : WBViewer :=
  inputs.foldl (fun s2 t => wb_update_curve fc fs N s2 t.1 t.2) s

/-- `np.hanning(N)[m] = 0.5 - 0.5*cos(2*pi*m/(N-1))`. -/
noncomputable def hanning (N : ℕ) (m : ℕ) : ℝ :=
  1 / 2 - 1 / 2 * Real.cos (2 * Real.pi * (m : ℝ) / ((N : ℝ) - 1))

/-- `x = buff[:M] * win[:M]` zero-padded to length `N` (the padding performed
by `np.fft.fft(x, n=N)` when `len(x) < N`). -/
noncomputable def windowedPad (N : ℕ) (block : List ℂ) (m : ℕ) : ℂ :=
  if h : m < block.length then block.get ⟨m, h⟩ * ((hanning N m : ℝ) : ℂ) else 0

/-- The length-`N` discrete Fourier transform (numpy convention, no
normalization): `X[k] = Σ_m x[m]·exp(-2πi·k·m/N)`. -/
noncomputable def dft (N : ℕ) (x : ℕ → ℂ) (k : ℕ) : ℂ :=
  ∑ m ∈ Finset.range N, x m * Complex.exp (-(2 * (Real.pi : ℂ) * Complex.I * (k : ℂ) * (m : ℂ)) / (N : ℂ))

/-- Index mapping of `np.fft.fftshift` (`np.roll(·, N//2)`):
output bin `k` holds input bin `(k - N//2) mod N`. -/
def fftshiftIdx (N k : ℕ) : ℕ := (k + N - N / 2) % N

/-- `np.fft.fftshift`: rotate the spectrum so the zero-frequency bin is
centered. -/
noncomputable def fftshift (N : ℕ) (X : ℕ → ℂ) (k : ℕ) : ℂ := X (fftshiftIdx N k)

/-- The body of `SDRWorker.run`'s processing:
`X = fftshift(fft(x, n=N))/N`, `P = 10·log10(|X|² + 1e-20) - 10·log10(fs/N)`,
emitted as a length-`N` vector. `block` is the (possibly short) read
`buff[:sr.ret]`. -/
noncomputable def spectralTransform (fs : ℝ) (N : ℕ) (block : List ℂ) : List ℝ :=
  (List.range N).map (fun k =>
    10 * Real.logb 10
        (Complex.abs (fftshift N (dft N (windowedPad N block)) k / (N : ℂ)) ^ 2 + 1 / 10 ^ 20)
      - 10 * Real.logb 10 (fs / (N : ℝ)))

/-- One iteration of the `while self.running` read loop: `sr.ret` is the
stream read result (negative on timeout/error, otherwise the number of
samples delivered into `buff`); a spectrum is emitted only when `sr.ret > 0`. -/
noncomputable def readCycle (fs : ℝ) (N : ℕ) (ret : ℤ) (buff : List ℂ) : Option (List ℝ) :=
  if 0 < ret then some (spectralTransform fs N (buff.take ret.toNat)) else none

/-- A concrete LOCKED viewer state (reference 5 dB). -/
def wbLockedSample : WBViewer :=
  { noise_locked := true
    noise_value := some 5
    calib_start := 0
    curve_y := []
    plateau_window := []
    plateau_smooth := none
    plateau_min := none
    plateau_max := none
    current_ymax := 10 }

/-- A concrete viewer state with plateau min 2 and max 5 already set. -/
def wbPlateauSample : WBViewer :=
  { noise_locked := false
    noise_value := none
    calib_start := 0
    curve_y := []
    plateau_window := []
    plateau_smooth := none
    plateau_min := some 2
    plateau_max := some 5
    current_ymax := 10 }

/-- A concrete NB viewer whose axis has two bins inside the noise window
(489.745 and 489.755 MHz) and one inside the beacon exclusion (489.7495). -/
def nbSampleA : NBViewer :=
  { offset_khz := 50
    file := none
    freq_axis_disp := [489745/1000, 4897495/10000, 489755/1000]
    curve_y := [0, 0, 0]
    fft_buffer := fun _ _ => 0
    idx := 0
    worker_fc := fc_nominal_hz }

/-- A concrete NB viewer whose axis lies entirely outside the noise window. -/
def nbSampleB : NBViewer :=
  { offset_khz := 50
    file := none
    freq_axis_disp := [0, 1, 2]
    curve_y := [3, 4, 5]
    fft_buffer := fun _ _ => 0
    idx := 0
    worker_fc := fc_nominal_hz }

/-- A whole session of spectra pushed through `update_curve`. -/
def nbPushAll (N : ℕ) (s : NBViewer) (Ps : List (List ℚ)) : NBViewer :=
  Ps.foldl (update_curve N) s

/-- An NB viewer whose offset (0.00005 kHz) is not a whole number of
0.001 kHz, as can result from hand-editing the offset file. -/
def nbSampleC : NBViewer :=
  { offset_khz := 1/20000
    file := none
    freq_axis_disp := []
    curve_y := []
    fft_buffer := fun _ _ => 0
    idx := 0
    worker_fc := fc_nominal_hz }

/-- An NB viewer whose offset is exactly 0.002 kHz. -/
def nbSampleD : NBViewer :=
  { offset_khz := 2/1000
    file := none
    freq_axis_disp := []
    curve_y := []
    fft_buffer := fun _ _ => 0
    idx := 0
    worker_fc := fc_nominal_hz }

/-! ## Theorems -/

theorem fmt3_50 : fmt3 50 = "50.000" := by norm_num [fmt3, roundHE]; decide

theorem valLSB_natDigitsAux (fuel : ℕ) :
    ∀ n, n ≤ fuel → valLSB (natDigitsAux fuel n) = n := by
  induction fuel with
  | zero =>
    intro n hn
    have hn0 : n = 0 := by omega
    subst hn0; rfl
  | succ fuel ih =>
    intro n hn
    by_cases h : n = 0
    · subst h; rfl
    · simp only [natDigitsAux, if_neg h, valLSB]
      rw [ih (n / 10) (by omega)]
      omega

theorem valLSB_natDigits (n : ℕ) : valLSB (natDigits n) = n :=
  valLSB_natDigitsAux n n le_rfl

theorem natDigitsAux_digit_lt (fuel : ℕ) :
    ∀ n d, d ∈ natDigitsAux fuel n → d < 10 := by
  induction fuel with
  | zero => intro n d hd; simp [natDigitsAux] at hd
  | succ fuel ih =>
    intro n d hd
    by_cases h : n = 0
    · subst h; simp [natDigitsAux] at hd
    · simp only [natDigitsAux, if_neg h, List.mem_cons] at hd
      rcases hd with h1 | h2
      · omega
      · exact ih _ _ h2

theorem natDigits_digit_lt {n d : ℕ} (h : d ∈ natDigits n) : d < 10 :=
  natDigitsAux_digit_lt n n d h

theorem natDigitsAux_length_le (fuel : ℕ) :
    ∀ n k, n ≤ fuel → n < 10 ^ k → (natDigitsAux fuel n).length ≤ k := by
  induction fuel with
  | zero =>
    intro n k hn _
    have hn0 : n = 0 := by omega
    subst hn0; simp [natDigitsAux]
  | succ fuel ih =>
    intro n k hn hk
    by_cases h : n = 0
    · subst h; simp [natDigitsAux]
    · simp only [natDigitsAux, if_neg h, List.length_cons]
      obtain ⟨k2, rfl⟩ : ∃ k2, k = k2 + 1 := by
        refine ⟨k - 1, ?_⟩
        rcases Nat.eq_zero_or_pos k with hk0 | hk0
        · subst hk0; simp at hk; omega
        · omega
      have hdiv : n / 10 < 10 ^ k2 := by
        rw [Nat.div_lt_iff_lt_mul (by norm_num)]
        calc n < 10 ^ (k2 + 1) := hk
        _ = 10 ^ k2 * 10 := by ring
      have := ih (n / 10) k2 (by omega) hdiv
      omega

theorem natDigits_length_le {n k : ℕ} (h : n < 10 ^ k) : (natDigits n).length ≤ k :=
  natDigitsAux_length_le n n k le_rfl h

@[simp] theorem valAcc_nil (a : ℕ) : valAcc a [] = a := rfl

@[simp] theorem valAcc_cons (a d : ℕ) (l : List ℕ) :
    valAcc a (d :: l) = valAcc (10 * a + d) l := rfl

theorem valAcc_append (a : ℕ) (l1 l2 : List ℕ) :
    valAcc a (l1 ++ l2) = valAcc (valAcc a l1) l2 := by
  simp [valAcc, List.foldl_append]

theorem valMSB_reverse (l : List ℕ) : valMSB l.reverse = valLSB l := by
  induction l with
  | nil => rfl
  | cons d ds ih =>
    simp only [valMSB, List.reverse_cons, valAcc_append, valLSB] at *
    simp [ih.symm, valMSB]
    omega

theorem valAcc_replicate_zero (a k : ℕ) :
    valAcc a (List.replicate k 0) = a * 10 ^ k := by
  induction k generalizing a with
  | zero => simp
  | succ k ih =>
    rw [List.replicate_succ, valAcc_cons, ih]
    ring

theorem valMSB_pad (k : ℕ) (l : List ℕ) :
    valMSB (List.replicate k 0 ++ l) = valMSB l := by
  simp [valMSB, valAcc_append, valAcc_replicate_zero]

theorem digitChar_isDigit {d : ℕ} (h : d < 10) : (digitChar d).isDigit = true := by
  interval_cases d <;> decide

theorem digitToNat_digitChar {d : ℕ} (h : d < 10) : digitToNat (digitChar d) = d := by
  interval_cases d <;> decide

theorem digitChar_ne_dot {d : ℕ} (h : d < 10) : digitChar d ≠ '.' := by
  interval_cases d <;> decide

theorem digitChar_ne_minus {d : ℕ} (h : d < 10) : digitChar d ≠ '-' := by
  interval_cases d <;> decide

theorem digitChar_ne_plus {d : ℕ} (h : d < 10) : digitChar d ≠ '+' := by
  interval_cases d <;> decide

theorem splitDigits_map_append (l : List ℕ) (hl : ∀ d ∈ l, d < 10) (r : List Char)
    (hr : r = [] ∨ ∃ c r2, r = c :: r2 ∧ c.isDigit = false) :
    splitDigits (l.map digitChar ++ r) = (l, r) := by
  induction l with
  | nil =>
    rcases hr with rfl | ⟨c, r2, rfl, hc⟩
    · rfl
    · simp [splitDigits, hc]
  | cons d ds ih =>
    have hd : d < 10 := hl d (by simp)
    have ih2 := ih (fun x hx => hl x (by simp [hx]))
    simp [splitDigits, digitChar_isDigit hd, ih2, digitToNat_digitChar hd]

theorem valMSB_idigits (m : ℕ) : valMSB (idigits m) = m := by
  unfold idigits
  by_cases h : m = 0
  · subst h; rfl
  · rw [if_neg h, valMSB_reverse, valLSB_natDigits]

theorem idigits_digit_lt (m : ℕ) : ∀ d ∈ idigits m, d < 10 := by
  unfold idigits
  by_cases h : m = 0
  · subst h; simp
  · rw [if_neg h]
    intro d hd
    exact natDigits_digit_lt (List.mem_reverse.mp hd)

theorem idigits_ne_nil (m : ℕ) : idigits m ≠ [] := by
  unfold idigits
  by_cases h : m = 0
  · subst h; simp
  · rw [if_neg h]
    obtain ⟨m2, rfl⟩ : ∃ m2, m = m2 + 1 := ⟨m - 1, by omega⟩
    simp [natDigits, natDigitsAux]

theorem valMSB_fdigits (fr : ℕ) : valMSB (fdigits fr) = fr := by
  unfold fdigits
  rw [valMSB_pad, valMSB_reverse, valLSB_natDigits]

theorem fdigits_digit_lt (fr : ℕ) : ∀ d ∈ fdigits fr, d < 10 := by
  unfold fdigits
  intro d hd
  rcases List.mem_append.mp hd with h1 | h2
  · have := List.eq_of_mem_replicate h1
    omega
  · exact natDigits_digit_lt (List.mem_reverse.mp h2)

theorem fdigits_length {fr : ℕ} (h : fr < 1000) : (fdigits fr).length = 3 := by
  have hlen : (natDigits fr).length ≤ 3 := natDigits_length_le (by norm_num; omega)
  simp only [fdigits, List.length_append, List.length_replicate, List.length_reverse]
  omega

theorem idigits_isEmpty (m : ℕ) : (idigits m).isEmpty = false := by
  cases h : idigits m with
  | nil => exact absurd h (idigits_ne_nil m)
  | cons a l => rfl

theorem parseUnsigned_fmt (m fr : ℕ) (hfr : fr < 1000) :
    parseUnsigned (intChars m ++ '.' :: fracChars fr) = some ((m : ℚ) + (fr : ℚ) / 1000) := by
  have h1 := splitDigits_map_append (idigits m) (idigits_digit_lt m)
    ('.' :: fracChars fr) (Or.inr ⟨'.', fracChars fr, rfl, by decide⟩)
  have h2 : splitDigits (fracChars fr) = (fdigits fr, []) := by
    have h0 := splitDigits_map_append (fdigits fr) (fdigits_digit_lt fr) [] (Or.inl rfl)
    simpa [fracChars] using h0
  rw [show intChars m ++ '.' :: fracChars fr = (idigits m).map digitChar ++ '.' :: fracChars fr
    from rfl]
  simp [parseUnsigned, h1, h2, valMSB_idigits, valMSB_fdigits, fdigits_length hfr,
    idigits_isEmpty]
  norm_num

theorem parseFloat_fmt3Core (n : ℤ) :
    parseFloat (String.mk (if n < 0 then
        '-' :: (intChars (n.natAbs / 1000) ++ '.' :: fracChars (n.natAbs % 1000))
      else intChars (n.natAbs / 1000) ++ '.' :: fracChars (n.natAbs % 1000))) =
    some ((n : ℚ) / 1000) := by
  have hmod : ∀ a : ℕ, ((a / 1000 : ℕ) : ℚ) + ((a % 1000 : ℕ) : ℚ) / 1000 = (a : ℚ) / 1000 := by
    intro a
    have h0 : a / 1000 * 1000 + a % 1000 = a := by omega
    field_simp
    norm_cast
  set a := n.natAbs with ha
  have hfr : a % 1000 < 1000 := Nat.mod_lt _ (by norm_num)
  by_cases hneg : n < 0
  · rw [if_pos hneg]
    have hpf : parseFloat (String.mk ('-' :: (intChars (a / 1000) ++ '.' :: fracChars (a % 1000)))) =
        (parseUnsigned (intChars (a / 1000) ++ '.' :: fracChars (a % 1000))).map (fun v => -v) := by
      simp [parseFloat]
    rw [hpf, parseUnsigned_fmt _ _ hfr, Option.map_some', hmod]
    have h1 : (a : ℤ) = -n := by omega
    have hcast : (a : ℚ) = -(n : ℚ) := by exact_mod_cast congrArg (fun z : ℤ => (z : ℚ)) h1
    rw [hcast, neg_div, neg_neg]
  · rw [if_neg hneg]
    obtain ⟨d, ds, hid⟩ : ∃ d ds, idigits (a / 1000) = d :: ds := by
      cases h : idigits (a / 1000) with
      | nil => exact absurd h (idigits_ne_nil _)
      | cons d ds => exact ⟨d, ds, rfl⟩
    have hd10 : d < 10 := idigits_digit_lt _ d (by rw [hid]; simp)
    have hdata : intChars (a / 1000) ++ '.' :: fracChars (a % 1000) =
        digitChar d :: (ds.map digitChar ++ '.' :: fracChars (a % 1000)) := by
      rw [intChars, hid]; simp
    rw [hdata]
    have hpf : parseFloat (String.mk (digitChar d :: (ds.map digitChar ++ '.' :: fracChars (a % 1000)))) =
        parseUnsigned (digitChar d :: (ds.map digitChar ++ '.' :: fracChars (a % 1000))) := by
      simp [parseFloat, digitChar_ne_minus hd10, digitChar_ne_plus hd10]
    rw [hpf, ← hdata, parseUnsigned_fmt _ _ hfr, hmod]
    have h1 : (a : ℤ) = n := by omega
    have hcast : (a : ℚ) = (n : ℚ) := by exact_mod_cast congrArg (fun z : ℤ => (z : ℚ)) h1
    rw [hcast]

theorem parseFloat_fmt3 (q : ℚ) :
    parseFloat (fmt3 q) = some ((roundHE (q * 1000) : ℚ) / 1000) := by
  have h := parseFloat_fmt3Core (roundHE (q * 1000))
  simpa [fmt3] using h

theorem wb_calibrate_locked (fc fs : ℚ) (N : ℕ) (s : WBViewer) (P : List ℚ) (now : ℚ)
    (hl : s.noise_locked = true) : wb_calibrate fc fs N s P now = s := by
  simp [wb_calibrate, hl]

theorem wb_calibrate_fields (fc fs : ℚ) (N : ℕ) (s : WBViewer) (P : List ℚ) (now : ℚ) :
    (wb_calibrate fc fs N s P now).plateau_min = s.plateau_min ∧
    (wb_calibrate fc fs N s P now).plateau_max = s.plateau_max ∧
    (wb_calibrate fc fs N s P now).calib_start = s.calib_start := by
  unfold wb_calibrate
  by_cases h : (!s.noise_locked && decide (3 ≤ now - s.calib_start)
      && !(maskedVals (wbFreqAxis fc fs N) P (wb_left_mask fc)).isEmpty) = true
  · simp [h]
  · simp [h]

theorem wb_display_fields (fc fs : ℚ) (N : ℕ) (s : WBViewer) (P : List ℚ) :
    (wb_display fc fs N s P).noise_locked = s.noise_locked ∧
    (wb_display fc fs N s P).noise_value = s.noise_value ∧
    (wb_display fc fs N s P).calib_start = s.calib_start := by
  unfold wb_display
  cases hl : s.noise_locked <;> cases hv : s.noise_value <;> exact ⟨rfl, rfl, rfl⟩

theorem wb_step_locked (fc fs : ℚ) (N : ℕ) (s : WBViewer) (v : ℚ)
    (hl : s.noise_locked = true) (hv : s.noise_value = some v) (P : List ℚ) (now : ℚ) :
    (wb_update_curve fc fs N s P now).noise_locked = true ∧
    (wb_update_curve fc fs N s P now).noise_value = some v ∧
    (wb_update_curve fc fs N s P now).curve_y = P.map (fun x => x - v) := by
  unfold wb_update_curve
  rw [wb_calibrate_locked fc fs N s P now hl]
  unfold wb_display
  simp [hl, hv]

theorem wb_run_locked (fc fs : ℚ) (N : ℕ) (inputs : List (List ℚ × ℚ)) :
    ∀ (s : WBViewer) (v : ℚ), s.noise_locked = true → s.noise_value = some v →
    (wb_run fc fs N s inputs).noise_locked = true ∧
    (wb_run fc fs N s inputs).noise_value = some v := by
  induction inputs with
  | nil => intro s v hl hv; exact ⟨hl, hv⟩
  | cons t ts ih =>
    intro s v hl hv
    have h := wb_step_locked fc fs N s v hl hv t.1 t.2
    have h2 := ih (wb_update_curve fc fs N s t.1 t.2) v h.1 h.2.1
    simpa [wb_run, List.foldl_cons] using h2

theorem wb_min_update_le (old : Option ℚ) (y m : ℚ) (h : old = some m) :
    ∃ m2, wb_min_update old y = some m2 ∧ m2 ≤ m := by
  subst h
  by_cases hy : y < m
  · exact ⟨y, by simp [wb_min_update, hy], le_of_lt hy⟩
  · exact ⟨m, by simp [wb_min_update, hy], le_rfl⟩

theorem wb_max_update_ge (old : Option ℚ) (y m : ℚ) (h : old = some m) :
    ∃ m2, wb_max_update old y = some m2 ∧ m ≤ m2 := by
  subst h
  by_cases hy : m < y
  · exact ⟨y, by simp [wb_max_update, hy], le_of_lt hy⟩
  · exact ⟨m, by simp [wb_max_update, hy], le_rfl⟩

theorem wb_step_min (fc fs : ℚ) (N : ℕ) (s : WBViewer) (P : List ℚ) (now : ℚ)
    (m : ℚ) (hm : s.plateau_min = some m) :
    ∃ m2, (wb_update_curve fc fs N s P now).plateau_min = some m2 ∧ m2 ≤ m := by
  unfold wb_update_curve
  have hc : (wb_calibrate fc fs N s P now).plateau_min = s.plateau_min :=
    (wb_calibrate_fields fc fs N s P now).1
  unfold wb_display
  cases hl : (wb_calibrate fc fs N s P now).noise_locked <;>
    cases hv : (wb_calibrate fc fs N s P now).noise_value
  · exact ⟨m, hc.trans hm, le_rfl⟩
  · exact ⟨m, hc.trans hm, le_rfl⟩
  · exact ⟨m, hc.trans hm, le_rfl⟩
  · exact wb_min_update_le _ _ m (hc.trans hm)

theorem wb_step_max (fc fs : ℚ) (N : ℕ) (s : WBViewer) (P : List ℚ) (now : ℚ)
    (m : ℚ) (hm : s.plateau_max = some m) :
    ∃ m2, (wb_update_curve fc fs N s P now).plateau_max = some m2 ∧ m ≤ m2 := by
  unfold wb_update_curve
  have hc : (wb_calibrate fc fs N s P now).plateau_max = s.plateau_max :=
    (wb_calibrate_fields fc fs N s P now).2.1
  unfold wb_display
  cases hl : (wb_calibrate fc fs N s P now).noise_locked <;>
    cases hv : (wb_calibrate fc fs N s P now).noise_value
  · exact ⟨m, hc.trans hm, le_rfl⟩
  · exact ⟨m, hc.trans hm, le_rfl⟩
  · exact ⟨m, hc.trans hm, le_rfl⟩
  · exact wb_max_update_ge _ _ m (hc.trans hm)

/-- C3: once the calibration state machine is LOCKED it never returns to
CALIBRATING (no operation re-arms it for the rest of the session), the
latched noise reference is never modified again, and every subsequently
processed spectrum is displayed as `P - noise_reference_dB`. -/
theorem claim_C3_locked_is_terminal (fc fs : ℚ) (N : ℕ) (s : WBViewer) (v : ℚ)
    (P : List ℚ) (now : ℚ) (inputs : List (List ℚ × ℚ))
    (hl : s.noise_locked = true) (hv : s.noise_value = some v) :
    (wb_update_curve fc fs N s P now).noise_locked = true ∧
    (wb_update_curve fc fs N s P now).noise_value = some v ∧
    (wb_update_curve fc fs N s P now).curve_y = P.map (fun x => x - v) ∧
    (wb_run fc fs N s inputs).noise_locked = true ∧
    (wb_run fc fs N s inputs).noise_value = some v := by
  obtain ⟨h1, h2, h3⟩ := wb_step_locked fc fs N s v hl hv P now
  obtain ⟨h4, h5⟩ := wb_run_locked fc fs N inputs s v hl hv
  exact ⟨h1, h2, h3, h4, h5⟩

theorem claim_C3_witness :
    (wb_update_curve 0 1 1 wbLockedSample [7] 10).noise_locked = true ∧
    (wb_update_curve 0 1 1 wbLockedSample [7] 10).noise_value = some 5 ∧
    (wb_update_curve 0 1 1 wbLockedSample [7] 10).curve_y = [7].map (fun x => x - 5) ∧
    (wb_run 0 1 1 wbLockedSample [([7], 10)]).noise_locked = true ∧
    (wb_run 0 1 1 wbLockedSample [([7], 10)]).noise_value = some 5 :=
  claim_C3_locked_is_terminal 0 1 1 wbLockedSample 5 [7] 10 [([7], 10)] rfl rfl

/-- C9: across any sequence of plateau-estimator updates, with arbitrary
input spectra (hence arbitrary, possibly negative or zero, smoothed plateau
values), the running minimum never increases and the running maximum never
decreases once each has first been set. -/
theorem claim_C9_plateau_min_max_monotone (fc fs : ℚ) (N : ℕ)
    (inputs : List (List ℚ × ℚ)) :
    ∀ s : WBViewer,
    (∀ m, s.plateau_min = some m →
      ∃ m2, (wb_run fc fs N s inputs).plateau_min = some m2 ∧ m2 ≤ m) ∧
    (∀ m, s.plateau_max = some m →
      ∃ m2, (wb_run fc fs N s inputs).plateau_max = some m2 ∧ m ≤ m2) := by
  induction inputs with
  | nil =>
    intro s
    exact ⟨fun m hm => ⟨m, hm, le_rfl⟩, fun m hm => ⟨m, hm, le_rfl⟩⟩
  | cons t ts ih =>
    intro s
    constructor
    · intro m hm
      obtain ⟨m1, h1, hle1⟩ := wb_step_min fc fs N s t.1 t.2 m hm
      obtain ⟨m2, h2, hle2⟩ := (ih (wb_update_curve fc fs N s t.1 t.2)).1 m1 h1
      exact ⟨m2, h2, le_trans hle2 hle1⟩
    · intro m hm
      obtain ⟨m1, h1, hle1⟩ := wb_step_max fc fs N s t.1 t.2 m hm
      obtain ⟨m2, h2, hle2⟩ := (ih (wb_update_curve fc fs N s t.1 t.2)).2 m1 h1
      exact ⟨m2, h2, le_trans hle1 hle2⟩

theorem claim_C9_witness :
    (∃ m2, (wb_run 0 1 1 wbPlateauSample [([3], 4)]).plateau_min = some m2 ∧ m2 ≤ 2) ∧
    (∃ m2, (wb_run 0 1 1 wbPlateauSample [([3], 4)]).plateau_max = some m2 ∧ 5 ≤ m2) :=
  ⟨(claim_C9_plateau_min_max_monotone 0 1 1 [([3], 4)] wbPlateauSample).1 2 rfl,
   (claim_C9_plateau_min_max_monotone 0 1 1 [([3], 4)] wbPlateauSample).2 5 rfl⟩

theorem wb_step_not_locked (fc fs : ℚ) (N : ℕ) (s : WBViewer) (P : List ℚ) (now : ℚ)
    (hl : s.noise_locked = false) (ht : now - s.calib_start < 3) :
    (wb_update_curve fc fs N s P now).noise_locked = false ∧
    (wb_update_curve fc fs N s P now).calib_start = s.calib_start := by
  unfold wb_update_curve
  have hdec : decide (3 ≤ now - s.calib_start) = false := by
    simp only [decide_eq_false_iff_not, not_le]
    exact ht
  have hcal : wb_calibrate fc fs N s P now = s := by
    unfold wb_calibrate
    simp [hdec]
  rw [hcal]
  exact ⟨(wb_display_fields fc fs N s P).1.trans hl, (wb_display_fields fc fs N s P).2.2⟩

theorem wb_run_not_locked (fc fs : ℚ) (N : ℕ) (inputs : List (List ℚ × ℚ)) :
    ∀ s : WBViewer, s.noise_locked = false →
    (∀ t ∈ inputs, t.2 - s.calib_start < 3) →
    (wb_run fc fs N s inputs).noise_locked = false ∧
    (wb_run fc fs N s inputs).calib_start = s.calib_start := by
  induction inputs with
  | nil => intro s hl _; exact ⟨hl, rfl⟩
  | cons t ts ih =>
    intro s hl htimes
    obtain ⟨h1, h2⟩ := wb_step_not_locked fc fs N s t.1 t.2 hl (htimes t (by simp))
    obtain ⟨h3, h4⟩ := ih (wb_update_curve fc fs N s t.1 t.2) h1
      (fun u hu => by rw [h2]; exact htimes u (by simp [hu]))
    exact ⟨h3, h4.trans h2⟩

theorem wb_step_lock (fc fs : ℚ) (N : ℕ) (s : WBViewer) (P : List ℚ) (now : ℚ)
    (hl : s.noise_locked = false) (ht : 3 ≤ now - s.calib_start)
    (hne : maskedVals (wbFreqAxis fc fs N) P (wb_left_mask fc) ≠ []) :
    (wb_update_curve fc fs N s P now).noise_locked = true ∧
    (wb_update_curve fc fs N s P now).noise_value =
      some (percentile (maskedVals (wbFreqAxis fc fs N) P (wb_left_mask fc)) 95) := by
  unfold wb_update_curve
  have hdec : decide (3 ≤ now - s.calib_start) = true := decide_eq_true ht
  have hemp : (maskedVals (wbFreqAxis fc fs N) P (wb_left_mask fc)).isEmpty = false := by
    cases hL : maskedVals (wbFreqAxis fc fs N) P (wb_left_mask fc) with
    | nil => exact absurd hL hne
    | cons a l => rfl
  have hcal : wb_calibrate fc fs N s P now =
      { s with noise_value := some (percentile (maskedVals (wbFreqAxis fc fs N) P (wb_left_mask fc)) 95),
               noise_locked := true } := by
    unfold wb_calibrate
    simp [hl, hdec, hemp]
  rw [hcal]
  set s2 : WBViewer :=
    { s with noise_value := some (percentile (maskedVals (wbFreqAxis fc fs N) P (wb_left_mask fc)) 95),
             noise_locked := true } with hs2
  exact ⟨(wb_display_fields fc fs N s2 P).1, (wb_display_fields fc fs N s2 P).2.1⟩

/-- C2 (amended): while CALIBRATING and the 3 s dwell from construction has
not elapsed, the state machine stays CALIBRATING no matter how many spectra
are pushed; on the first spectrum processed after the dwell elapses whose
noise-estimation region is nonempty, it latches the 95th percentile (numpy
linear-interpolation percentile, not the arithmetic mean) of the power
values in that region as `noise_reference_dB` and transitions to LOCKED. -/
theorem claim_C2_dwell_then_lock_percentile (fc fs : ℚ) (N : ℕ) (s : WBViewer)
    (inputs : List (List ℚ × ℚ)) (P : List ℚ) (now : ℚ)
    (hl : s.noise_locked = false) :
    ((∀ t ∈ inputs, t.2 - s.calib_start < 3) →
      (wb_run fc fs N s inputs).noise_locked = false) ∧
    (3 ≤ now - s.calib_start →
      maskedVals (wbFreqAxis fc fs N) P (wb_left_mask fc) ≠ [] →
      (wb_update_curve fc fs N s P now).noise_locked = true ∧
      (wb_update_curve fc fs N s P now).noise_value =
        some (percentile (maskedVals (wbFreqAxis fc fs N) P (wb_left_mask fc)) 95)) :=
  ⟨fun htimes => (wb_run_not_locked fc fs N inputs s hl htimes).1,
   fun ht hne => wb_step_lock fc fs N s P now hl ht hne⟩

theorem wbAxisSample : wbFreqAxis 2000000 8000000 4 = [-2, 0, 2, 4] := by
  rw [wbFreqAxis, show List.range 4 = [0, 1, 2, 3] from by decide]
  norm_num

theorem wbLeftSample :
    maskedVals [-2, 0, 2, 4] [0, 100, 7, 7] (wb_left_mask 2000000) = [0, 100] := by
  norm_num [maskedVals, wb_left_mask, List.filter_cons, decide_eq_true_eq]

theorem claim_C2_witness :
    (wb_run 2000000 8000000 4 (wbInit 4 0) [([2, 2, 2, 2], 1)]).noise_locked = false ∧
    (wb_update_curve 2000000 8000000 4 (wbInit 4 0) [0, 100, 7, 7] 3).noise_locked = true ∧
    (wb_update_curve 2000000 8000000 4 (wbInit 4 0) [0, 100, 7, 7] 3).noise_value =
      some (percentile
        (maskedVals (wbFreqAxis 2000000 8000000 4) [0, 100, 7, 7] (wb_left_mask 2000000)) 95) := by
  have h := claim_C2_dwell_then_lock_percentile 2000000 8000000 4 (wbInit 4 0)
    [([2, 2, 2, 2], 1)] [0, 100, 7, 7] 3 rfl
  refine ⟨h.1 ?_, h.2 (by norm_num [wbInit]) ?_⟩
  · intro t ht
    rcases List.mem_singleton.mp ht with rfl
    norm_num [wbInit]
  · rw [wbAxisSample, wbLeftSample]
    simp

/-- C2 counterexample: at the first post-dwell spectrum the latched value is
the 95th percentile of the noise region, not its arithmetic mean — here the
region holds `[0, 100]`, whose mean is 50 but whose latched value is 95. -/
theorem claim_C2_counterexample :
    (wb_update_curve 2000000 8000000 4 (wbInit 4 0) [0, 100, 7, 7] 3).noise_locked = true ∧
    (wb_update_curve 2000000 8000000 4 (wbInit 4 0) [0, 100, 7, 7] 3).noise_value ≠
      some (meanQ
        (maskedVals (wbFreqAxis 2000000 8000000 4) [0, 100, 7, 7] (wb_left_mask 2000000))) := by
  have hlock := wb_step_lock 2000000 8000000 4 (wbInit 4 0) [0, 100, 7, 7] 3 rfl
    (by norm_num [wbInit]) (by rw [wbAxisSample, wbLeftSample]; simp)
  refine ⟨hlock.1, ?_⟩
  rw [hlock.2, wbAxisSample, wbLeftSample]
  have hp : percentile [0, 100] 95 = 95 := by norm_num [percentile, sortQ, insertSorted]
  have hm : meanQ [(0 : ℚ), 100] = 50 := by norm_num [meanQ]
  rw [hp, hm]
  simp only [ne_eq, Option.some.injEq]
  norm_num

/-- C5: for every averaged spectrum in the per-frame local-noise-estimate
variant, if the noise-window mask with the beacon exclusion removed selects
no samples, the displayed curve stays unchanged for that frame; otherwise
the displayed curve is the averaged spectrum minus the median of the
selected samples. -/
theorem claim_C5_local_noise_estimate (N : ℕ) (s : NBViewer) (P : List ℚ) :
    (maskedVals s.freq_axis_disp (nbAvgList N (nbBufAfter s P)) nbNoiseMask = [] →
      (update_curve N s P).curve_y = s.curve_y) ∧
    (maskedVals s.freq_axis_disp (nbAvgList N (nbBufAfter s P)) nbNoiseMask ≠ [] →
      (update_curve N s P).curve_y =
        (nbAvgList N (nbBufAfter s P)).map (fun x =>
          x - median (maskedVals s.freq_axis_disp (nbAvgList N (nbBufAfter s P)) nbNoiseMask))) := by
  constructor
  · intro hsel
    unfold update_curve
    simp [hsel]
  · intro hsel
    have hemp : (maskedVals s.freq_axis_disp (nbAvgList N (nbBufAfter s P)) nbNoiseMask).isEmpty
        = false := by
      cases hL : maskedVals s.freq_axis_disp (nbAvgList N (nbBufAfter s P)) nbNoiseMask with
      | nil => exact absurd hL hsel
      | cons a l => rfl
    unfold update_curve
    simp [hemp]

theorem nbSampleAvg : nbAvgList 3 (nbBufAfter nbSampleA [8, 16, 24]) = [1, 2, 3] := by
  rw [nbAvgList, show List.range 3 = [0, 1, 2] from by decide]
  norm_num [nbBufAfter, nbSampleA, AVG_FRAMES, Finset.sum_range_succ]

theorem nbSampleBvg : nbAvgList 3 (nbBufAfter nbSampleB [8, 16, 24]) = [1, 2, 3] := by
  rw [nbAvgList, show List.range 3 = [0, 1, 2] from by decide]
  norm_num [nbBufAfter, nbSampleB, AVG_FRAMES, Finset.sum_range_succ]

theorem nbSampleSel :
    maskedVals nbSampleA.freq_axis_disp [1, 2, 3] nbNoiseMask = [1, 3] := by
  norm_num [nbSampleA, maskedVals, nbNoiseMask, nb_bpsk_disp, NB_BPSK_DL,
    DISPLAY_OFFSET_MHZ, NOISE_WINDOW_KHZ, EXCLUDE_KHZ, List.filter_cons, decide_eq_true_eq]

theorem nbSampleSelB :
    maskedVals nbSampleB.freq_axis_disp [1, 2, 3] nbNoiseMask = [] := by
  norm_num [nbSampleB, maskedVals, nbNoiseMask, nb_bpsk_disp, NB_BPSK_DL,
    DISPLAY_OFFSET_MHZ, NOISE_WINDOW_KHZ, EXCLUDE_KHZ, List.filter_cons, decide_eq_true_eq]

theorem claim_C5_witness :
    (update_curve 3 nbSampleA [8, 16, 24]).curve_y = [-1, 0, 1] ∧
    (update_curve 3 nbSampleB [8, 16, 24]).curve_y = nbSampleB.curve_y := by
  constructor
  · have h := (claim_C5_local_noise_estimate 3 nbSampleA [8, 16, 24]).2
      (by rw [nbSampleAvg, nbSampleSel]; simp)
    rw [h, nbSampleAvg, nbSampleSel]
    have hmed : median [1, 3] = 2 := by norm_num [median, sortQ, insertSorted]
    rw [hmed]
    norm_num
  · exact (claim_C5_local_noise_estimate 3 nbSampleB [8, 16, 24]).1
      (by rw [nbSampleBvg, nbSampleSelB])

/-- C8: recomputing the display axis (performed after every offset step)
changes only the x values painted under the curve — the previously
displayed power values, the averaging ring, the cyclic index and the
offset survive unchanged — and neither the recompute nor the offset steps
touch the hardware tuning center frequency. -/
theorem claim_C8_axis_recompute_display_only (fs : ℚ) (N : ℕ) (s : NBViewer) :
    (recompute_display_axis fs N s).curve_y = s.curve_y ∧
    (recompute_display_axis fs N s).freq_axis_disp = nbFreqAxisDisp fs N s.offset_khz ∧
    (recompute_display_axis fs N s).worker_fc = s.worker_fc ∧
    (recompute_display_axis fs N s).offset_khz = s.offset_khz ∧
    (recompute_display_axis fs N s).fft_buffer = s.fft_buffer ∧
    (recompute_display_axis fs N s).idx = s.idx ∧
    (offset_plus fs N s).curve_y = s.curve_y ∧
    (offset_plus fs N s).worker_fc = s.worker_fc ∧
    (offset_minus fs N s).curve_y = s.curve_y ∧
    (offset_minus fs N s).worker_fc = s.worker_fc :=
  ⟨rfl, rfl, rfl, rfl, rfl, rfl, rfl, rfl, rfl, rfl⟩

theorem nb_step_buffer (N : ℕ) (s : NBViewer) (P : List ℚ) :
    (update_curve N s P).fft_buffer = nbBufAfter s P ∧
    (update_curve N s P).idx = s.idx + 1 := by
  unfold update_curve
  by_cases h : (maskedVals s.freq_axis_disp (nbAvgList N (nbBufAfter s P)) nbNoiseMask).isEmpty
  · simp [h]
  · simp [h]

theorem nb_pushAll_idx (N : ℕ) (Ps : List (List ℚ)) :
    ∀ s, (nbPushAll N s Ps).idx = s.idx + Ps.length := by
  induction Ps with
  | nil => intro s; simp [nbPushAll]
  | cons p ps ih =>
    intro s
    have h : nbPushAll N s (p :: ps) = nbPushAll N (update_curve N s p) ps := rfl
    rw [h, ih (update_curve N s p), (nb_step_buffer N s p).2]
    simp
    omega

theorem nb_buffer_rows (fs : ℚ) (N : ℕ) (file : Option String) (Ps : List (List ℚ)) :
    ∀ j, j < AVG_FRAMES →
      (nbPushAll N (nbInit fs N file) Ps).fft_buffer j =
        if j < Ps.length then
          fun n => (Ps.getD (Ps.length - 1 - ((Ps.length - 1 - j) % AVG_FRAMES)) []).getD n 0
        else fun _ => 0 := by
  have hA : AVG_FRAMES = 8 := rfl
  induction Ps using List.reverseRecOn with
  | nil =>
    intro j hj
    simp [nbPushAll, nbInit]
  | append_singleton ps p ih =>
    intro j hj
    have hj8 : j < 8 := by omega
    have hfold : nbPushAll N (nbInit fs N file) (ps ++ [p]) =
        update_curve N (nbPushAll N (nbInit fs N file) ps) p := by
      simp [nbPushAll, List.foldl_append]
    rw [hfold, (nb_step_buffer N _ p).1]
    unfold nbBufAfter
    have hidx : (nbPushAll N (nbInit fs N file) ps).idx = ps.length := by
      rw [nb_pushAll_idx]; simp [nbInit]
    rw [hidx]
    have hlen : (ps ++ [p]).length = ps.length + 1 := by simp
    simp only [hA, hlen]
    by_cases hj2 : j = ps.length % 8
    · rw [if_pos hj2]
      have hjle : ps.length % 8 ≤ ps.length := Nat.mod_le _ _
      rw [if_pos (by omega)]
      have hidx2 : ps.length + 1 - 1 - ((ps.length + 1 - 1 - j) % 8) = ps.length := by omega
      rw [hidx2]
      funext n
      rw [List.getD_append_right ps [p] [] ps.length le_rfl]
      simp
    · rw [if_neg hj2]
      rw [ih j hj]
      simp only [hA]
      by_cases hjL : j < ps.length
      · rw [if_pos hjL, if_pos (by omega)]
        have hidx3 : ps.length + 1 - 1 - ((ps.length + 1 - 1 - j) % 8)
            = ps.length - 1 - ((ps.length - 1 - j) % 8) := by omega
        rw [hidx3]
        funext n
        rw [List.getD_append ps [p] [] _ (by omega)]
      · rw [if_neg hjL, if_neg (by omega)]

/-- C10 (implicit): the averaging ring is initialized with every slot 0.0 dB;
for `0 < i < K` pushes since start the computed running mean is the
column-wise sum of the `i` pushed spectra divided by `K` (a blend with the
zero prefill), and from the `K`-th push onward it is the arithmetic mean of
the last `K` pushed spectra. -/
theorem claim_C10_averaging_ring_mean (fs : ℚ) (N : ℕ) (file : Option String)
    (Ps : List (List ℚ)) :
    ((nbInit fs N file).fft_buffer = fun _ _ => 0) ∧
    (0 < Ps.length → Ps.length < AVG_FRAMES →
      nbAvgList N ((nbPushAll N (nbInit fs N file) Ps).fft_buffer) =
        (List.range N).map (fun n =>
          (∑ m ∈ Finset.range Ps.length, (Ps.getD m []).getD n 0) / (AVG_FRAMES : ℚ))) ∧
    (AVG_FRAMES ≤ Ps.length →
      nbAvgList N ((nbPushAll N (nbInit fs N file) Ps).fft_buffer) =
        (List.range N).map (fun n =>
          (∑ m ∈ Finset.Ico (Ps.length - AVG_FRAMES) Ps.length, (Ps.getD m []).getD n 0)
            / (AVG_FRAMES : ℚ))) := by
  have hA : AVG_FRAMES = 8 := rfl
  have hrows := nb_buffer_rows fs N file Ps
  refine ⟨rfl, ?_, ?_⟩
  · intro hpos hlt
    unfold nbAvgList
    refine List.map_congr_left ?_
    intro n _
    congr 1
    calc ∑ j ∈ Finset.range AVG_FRAMES, (nbPushAll N (nbInit fs N file) Ps).fft_buffer j n
        = ∑ j ∈ Finset.range AVG_FRAMES,
            (if j < Ps.length then
              (Ps.getD (Ps.length - 1 - ((Ps.length - 1 - j) % AVG_FRAMES)) []).getD n 0
            else 0) := by
          refine Finset.sum_congr rfl ?_
          intro j hj
          have hj8 : j < AVG_FRAMES := Finset.mem_range.mp hj
          have := congrFun (hrows j hj8) n
          rw [this, apply_ite (fun f : ℕ → ℚ => f n)]
      _ = ∑ j ∈ Finset.range Ps.length,
            (if j < Ps.length then
              (Ps.getD (Ps.length - 1 - ((Ps.length - 1 - j) % AVG_FRAMES)) []).getD n 0
            else 0) := by
          refine (Finset.sum_subset (Finset.range_subset.mpr (by omega)) ?_).symm
          intro j _ hj2
          rw [if_neg (by simpa using hj2)]
      _ = ∑ m ∈ Finset.range Ps.length, (Ps.getD m []).getD n 0 := by
          refine Finset.sum_congr rfl ?_
          intro j hj
          have hjlt : j < Ps.length := Finset.mem_range.mp hj
          rw [if_pos hjlt]
          congr 2
          rw [hA] at *
          omega
  · intro hge
    unfold nbAvgList
    refine List.map_congr_left ?_
    intro n _
    congr 1
    calc ∑ j ∈ Finset.range AVG_FRAMES, (nbPushAll N (nbInit fs N file) Ps).fft_buffer j n
        = ∑ j ∈ Finset.range AVG_FRAMES,
            (Ps.getD (Ps.length - 1 - ((Ps.length - 1 - j) % AVG_FRAMES)) []).getD n 0 := by
          refine Finset.sum_congr rfl ?_
          intro j hj
          have hj8 : j < AVG_FRAMES := Finset.mem_range.mp hj
          have := congrFun (hrows j hj8) n
          rw [this, apply_ite (fun f : ℕ → ℚ => f n), if_pos (by rw [hA] at *; omega)]
      _ = ∑ m ∈ Finset.Ico (Ps.length - AVG_FRAMES) Ps.length, (Ps.getD m []).getD n 0 := by
          refine Finset.sum_nbij'
            (fun j => Ps.length - 1 - ((Ps.length - 1 - j) % AVG_FRAMES))
            (fun m => m % AVG_FRAMES) ?_ ?_ ?_ ?_ ?_
          · intro j hj
            have hj8 : j < AVG_FRAMES := Finset.mem_range.mp hj
            rw [Finset.mem_Ico]
            simp only []
            rw [hA] at *
            omega
          · intro m hm
            rw [Finset.mem_Ico] at hm
            rw [Finset.mem_range]
            simp only []
            rw [hA] at *
            omega
          · intro j hj
            have hj8 : j < AVG_FRAMES := Finset.mem_range.mp hj
            simp only []
            rw [hA] at *
            omega
          · intro m hm
            rw [Finset.mem_Ico] at hm
            simp only []
            rw [hA] at *
            omega
          · intro j hj
            rfl

theorem roundHE_intCast (z : ℤ) : roundHE ((z : ℚ)) = z := by
  unfold roundHE
  rw [Int.floor_intCast]
  norm_num

/-- C6 (amended): `step(+Δ)` followed by `step(-Δ)` restores the offset to
its original value exactly; each step persists before returning (no write
lag) with the three-decimal rendering of the in-memory value, which parses
back to the in-memory value rounded to the nearest 0.001 kHz — equal to the
in-memory value exactly whenever that value is a whole number of 0.001 kHz
(as is every value reachable from the 50.0 default by ±0.1 kHz steps). -/
theorem claim_C6_offset_step_persistence (fs : ℚ) (N : ℕ) (s : NBViewer) :
    (offset_minus fs N (offset_plus fs N s)).offset_khz = s.offset_khz ∧
    (offset_plus fs N s).file = some (fmt3 ((offset_plus fs N s).offset_khz)) ∧
    (offset_minus fs N s).file = some (fmt3 ((offset_minus fs N s).offset_khz)) ∧
    parseFloat (fmt3 ((offset_plus fs N s).offset_khz)) =
      some ((roundHE ((offset_plus fs N s).offset_khz * 1000) : ℚ) / 1000) ∧
    (∀ k : ℤ, s.offset_khz = (k : ℚ) / 1000 →
      parseFloat (fmt3 ((offset_plus fs N s).offset_khz)) =
        some ((offset_plus fs N s).offset_khz)) := by
  refine ⟨?_, rfl, rfl, parseFloat_fmt3 _, ?_⟩
  · show s.offset_khz + OFFSET_STEP_KHZ - OFFSET_STEP_KHZ = s.offset_khz
    ring
  · intro k hk
    have hoff : (offset_plus fs N s).offset_khz = ((k + 100 : ℤ) : ℚ) / 1000 := by
      show s.offset_khz + OFFSET_STEP_KHZ = ((k + 100 : ℤ) : ℚ) / 1000
      rw [hk]
      unfold OFFSET_STEP_KHZ
      push_cast
      ring
    rw [hoff, parseFloat_fmt3]
    congr 1
    rw [div_mul_cancel₀ _ (by norm_num : (1000 : ℚ) ≠ 0), roundHE_intCast]

/-- C7: `load()` returns 50.0 and rewrites the store with the text
`"50.000"` whenever the file is absent or its content is unparsable (for
example `"abc"`); when the stripped content parses as a number, `load()`
returns that number and leaves the file unmodified. -/
theorem claim_C7_load_offset_defaults (raw : String) (v : ℚ) :
    load_offset none = (50, some "50.000") ∧
    load_offset (some "abc") = (50, some "50.000") ∧
    (parseFloat (pyStrip raw) = some v → load_offset (some raw) = (v, some raw)) := by
  refine ⟨?_, ?_, ?_⟩
  · simp [load_offset, fmt3_50]
  · have hp : parseFloat (pyStrip "abc") = none := by decide
    simp [load_offset, hp, fmt3_50]
  · intro h
    simp [load_offset, h]

/-- C6 counterexample: stepping the offset up from 0.00005 kHz leaves
0.10005 kHz in memory but persists the text "0.100", which parses back to
0.1 — the persisted store content differs from the in-memory value. -/
theorem claim_C6_counterexample :
    (offset_plus 1 1 nbSampleC).file = some "0.100" ∧
    parseFloat "0.100" ≠ some ((offset_plus 1 1 nbSampleC).offset_khz) := by
  have h1 : ((1 : ℚ)/20000 + OFFSET_STEP_KHZ) * 1000 = 2001/20 := by
    unfold OFFSET_STEP_KHZ
    norm_num
  have h2 : roundHE (2001/20) = 100 := by
    unfold roundHE
    rw [show ⌊(2001/20 : ℚ)⌋ = 100 from by norm_num]
    norm_num
  have h3 : fmt3 ((1 : ℚ)/20000 + OFFSET_STEP_KHZ) = "0.100" := by
    simp only [fmt3, h1, h2]
    decide
  constructor
  · show some (fmt3 ((1 : ℚ)/20000 + OFFSET_STEP_KHZ)) = some "0.100"
    rw [h3]
  · rw [← h3, parseFloat_fmt3, h1, h2]
    show some (((100 : ℤ) : ℚ) / 1000) ≠ some ((1 : ℚ)/20000 + OFFSET_STEP_KHZ)
    unfold OFFSET_STEP_KHZ
    simp only [ne_eq, Option.some.injEq]
    norm_num

theorem claim_C6_witness :
    (offset_minus 1 1 (offset_plus 1 1 nbSampleD)).offset_khz = nbSampleD.offset_khz ∧
    (offset_plus 1 1 nbSampleD).file = some (fmt3 ((offset_plus 1 1 nbSampleD).offset_khz)) ∧
    (offset_minus 1 1 nbSampleD).file = some (fmt3 ((offset_minus 1 1 nbSampleD).offset_khz)) ∧
    parseFloat (fmt3 ((offset_plus 1 1 nbSampleD).offset_khz)) =
      some ((roundHE ((offset_plus 1 1 nbSampleD).offset_khz * 1000) : ℚ) / 1000) ∧
    parseFloat (fmt3 ((offset_plus 1 1 nbSampleD).offset_khz)) =
      some ((offset_plus 1 1 nbSampleD).offset_khz) := by
  have h := claim_C6_offset_step_persistence 1 1 nbSampleD
  exact ⟨h.1, h.2.1, h.2.2.1, h.2.2.2.1, h.2.2.2.2 2 (by norm_num [nbSampleD])⟩

theorem claim_C7_witness :
    load_offset none = (50, some "50.000") ∧
    load_offset (some "abc") = (50, some "50.000") ∧
    load_offset (some "51.000") = (51, some "51.000") := by
  have hfmt : fmt3 51 = "51.000" := by norm_num [fmt3, roundHE]; decide
  have hparse : parseFloat (pyStrip "51.000") = some 51 := by
    rw [show pyStrip "51.000" = "51.000" from by decide, ← hfmt, parseFloat_fmt3]
    rw [show (51 : ℚ) * 1000 = ((51000 : ℤ) : ℚ) from by norm_num, roundHE_intCast]
    norm_num
  have h := claim_C7_load_offset_defaults "51.000" 51
  exact ⟨h.1, h.2.1, h.2.2 hparse⟩

theorem claim_C10_witness :
    nbAvgList 1 ((nbPushAll 1 (nbInit 1 1 none) [[8], [16]]).fft_buffer) =
      (List.range 1).map (fun n =>
        (∑ m ∈ Finset.range ([[(8 : ℚ)], [16]] : List (List ℚ)).length,
          (([[(8 : ℚ)], [16]] : List (List ℚ)).getD m []).getD n 0) / (AVG_FRAMES : ℚ)) ∧
    nbAvgList 1 ((nbPushAll 1 (nbInit 1 1 none)
        [[0], [8], [16], [24], [32], [40], [48], [56], [64]]).fft_buffer) =
      (List.range 1).map (fun n =>
        (∑ m ∈ Finset.Ico
            (([[(0 : ℚ)], [8], [16], [24], [32], [40], [48], [56], [64]] : List (List ℚ)).length
              - AVG_FRAMES)
            (([[(0 : ℚ)], [8], [16], [24], [32], [40], [48], [56], [64]] : List (List ℚ)).length),
          (([[(0 : ℚ)], [8], [16], [24], [32], [40], [48], [56], [64]] : List (List ℚ)).getD m
            []).getD n 0) / (AVG_FRAMES : ℚ)) :=
  ⟨(claim_C10_averaging_ring_mean 1 1 none [[8], [16]]).2.1 (by decide) (by decide),
   (claim_C10_averaging_ring_mean 1 1 none
      [[0], [8], [16], [24], [32], [40], [48], [56], [64]]).2.2 (by decide)⟩

/-- C4 (amended): a read cycle emits no spectrum exactly when the stream
read delivered no samples (`sr.ret ≤ 0`: timeout, error, or zero-length
read); every read delivering a positive number of samples — including short
reads with `0 < ret < N` — emits a spectrum, always of length `N`. -/
theorem claim_C4_read_cycle_emission (fs : ℝ) (N : ℕ) (ret : ℤ) (buff : List ℂ) :
    (readCycle fs N ret buff = none ↔ ret ≤ 0) ∧
    (0 < ret → ∃ sp, readCycle fs N ret buff = some sp ∧ sp.length = N) := by
  constructor
  · unfold readCycle
    by_cases h : 0 < ret
    · simp only [if_pos h]
      constructor
      · intro hc; exact absurd hc (by simp)
      · intro hc; omega
    · simp only [if_neg h]
      constructor
      · intro _; omega
      · intro _; trivial
  · intro h
    refine ⟨spectralTransform fs N (buff.take ret.toNat), ?_, ?_⟩
    · unfold readCycle
      rw [if_pos h]
    · unfold spectralTransform
      simp

/-- C4 counterexample: a short read (`ret = 1 < N = 3`) is not a no-op — a
spectrum is emitted for that cycle. -/
theorem claim_C4_counterexample :
    (1 : ℤ) < 3 ∧ readCycle 1 3 1 [1, 0, 0] ≠ none := by
  constructor
  · decide
  · unfold readCycle
    simp

theorem claim_C4_witness :
    (readCycle 1 3 (-1) [] = none ↔ (-1 : ℤ) ≤ 0) ∧
    (∃ sp, readCycle 1 3 3 [1, 0, 0] = some sp ∧ sp.length = 3) :=
  ⟨(claim_C4_read_cycle_emission 1 3 (-1) []).1,
   (claim_C4_read_cycle_emission 1 3 3 [1, 0, 0]).2 (by norm_num)⟩

/-- C1 (amended): for every input block of length `M ≤ N` the spectral
transform returns exactly `N` values, the `k`-th equal to
`10·log10(|X[k]/N|² + ε) − 10·log10(fs/N)` with `ε = 1e-20 > 0`, where `X`
is the centered (zero-frequency-shifted) length-`N` Fourier transform of
the windowed, zero-padded block — the code divides the transform by `N`
before converting to power. -/
theorem claim_C1_spectral_transform_formula (fs : ℝ) (N : ℕ) (block : List ℂ)
    (_hM : block.length ≤ N) :
    (spectralTransform fs N block).length = N ∧
    ∀ k, k < N → (spectralTransform fs N block).getD k 0 =
      10 * Real.logb 10
          (Complex.abs (fftshift N (dft N (windowedPad N block)) k / (N : ℂ)) ^ 2 + 1 / 10 ^ 20)
        - 10 * Real.logb 10 (fs / (N : ℝ)) := by
  constructor
  · unfold spectralTransform
    simp
  · intro k hk
    unfold spectralTransform
    rw [List.getD_eq_getElem _ _ (by simpa using hk)]
    simp

theorem claim_C1_witness :
    (spectralTransform 1 1 []).length = 1 ∧
    (spectralTransform 1 1 []).getD 0 0 =
      10 * Real.logb 10
          (Complex.abs (fftshift 1 (dft 1 (windowedPad 1 [])) 0 / ((1 : ℕ) : ℂ)) ^ 2 + 1 / 10 ^ 20)
        - 10 * Real.logb 10 (1 / ((1 : ℕ) : ℝ)) :=
  ⟨(claim_C1_spectral_transform_formula 1 1 [] (by simp)).1,
   (claim_C1_spectral_transform_formula 1 1 [] (by simp)).2 0 (by norm_num)⟩

theorem hanning_3_1 : hanning 3 1 = 1 := by
  unfold hanning
  rw [show (2 : ℝ) * Real.pi * ((1 : ℕ) : ℝ) / (((3 : ℕ) : ℝ) - 1) = Real.pi from by
    push_cast; ring]
  rw [Real.cos_pi]
  norm_num

theorem dft_sample_abs : Complex.abs (fftshift 3 (dft 3 (windowedPad 3 [0, 1, 0])) 0) = 1 := by
  have hidx : fftshiftIdx 3 0 = 2 := by decide
  unfold fftshift
  rw [hidx]
  unfold dft
  rw [Finset.sum_range_succ, Finset.sum_range_succ, Finset.sum_range_one]
  have hw0 : windowedPad 3 [0, 1, 0] 0 = 0 := by
    unfold windowedPad
    rw [dif_pos (by norm_num : (0 : ℕ) < ([0, 1, 0] : List ℂ).length)]
    simp
  have hw2 : windowedPad 3 [0, 1, 0] 2 = 0 := by
    unfold windowedPad
    rw [dif_pos (by norm_num : (2 : ℕ) < ([0, 1, 0] : List ℂ).length)]
    simp
  have hw1 : windowedPad 3 [0, 1, 0] 1 = ((hanning 3 1 : ℝ) : ℂ) := by
    unfold windowedPad
    rw [dif_pos (by norm_num : (1 : ℕ) < ([0, 1, 0] : List ℂ).length)]
    simp
  rw [hw0, hw1, hw2, hanning_3_1]
  simp only [Complex.ofReal_one, one_mul, zero_mul, zero_add, add_zero]
  rw [show -(2 * ((Real.pi : ℝ) : ℂ) * Complex.I * ((2 : ℕ) : ℂ) * ((1 : ℕ) : ℂ)) / ((3 : ℕ) : ℂ)
      = ((-(4 * Real.pi / 3) : ℝ) : ℂ) * Complex.I from by
    push_cast; ring]
  rw [Complex.abs_exp_ofReal_mul_I]

/-- C1 counterexample: the emitted power values are not
`10·log10(|X[k]|² + ε) − 10·log10(fs/N)` for `X` the raw centered Fourier
transform of the windowed block — at `N = 3`, `fs = 1`, block `[0, 1, 0]`
bin 0 the code's value uses `|X/N| = 1/3` while the claim's formula uses
`|X| = 1`. -/
theorem claim_C1_counterexample :
    (spectralTransform 1 3 [0, 1, 0]).getD 0 0 ≠
      10 * Real.logb 10
          (Complex.abs (fftshift 3 (dft 3 (windowedPad 3 [0, 1, 0])) 0) ^ 2 + 1 / 10 ^ 20)
        - 10 * Real.logb 10 (1 / ((3 : ℕ) : ℝ)) := by
  have hLHS : (spectralTransform 1 3 [0, 1, 0]).getD 0 0 =
      10 * Real.logb 10
          (Complex.abs (fftshift 3 (dft 3 (windowedPad 3 [0, 1, 0])) 0 / ((3 : ℕ) : ℂ)) ^ 2
            + 1 / 10 ^ 20)
        - 10 * Real.logb 10 (1 / ((3 : ℕ) : ℝ)) := by
    unfold spectralTransform
    rw [show List.range 3 = [0, 1, 2] from by decide]
    simp [List.getD]
  have habs : Complex.abs (fftshift 3 (dft 3 (windowedPad 3 [0, 1, 0])) 0 / ((3 : ℕ) : ℂ))
      = 1 / 3 := by
    rw [map_div₀ Complex.abs, dft_sample_abs, Complex.abs_natCast]
    norm_num
  rw [hLHS, habs, dft_sample_abs]
  have hlt : Real.logb 10 ((1 / 3 : ℝ) ^ 2 + 1 / 10 ^ 20)
      < Real.logb 10 ((1 : ℝ) ^ 2 + 1 / 10 ^ 20) :=
    Real.logb_lt_logb (by norm_num) (by positivity) (by norm_num)
  intro heq
  have heq2 : Real.logb 10 ((1 / 3 : ℝ) ^ 2 + 1 / 10 ^ 20)
      = Real.logb 10 ((1 : ℝ) ^ 2 + 1 / 10 ^ 20) := by linarith
  linarith
